import Mathlib

/-!
Verification of the GPU cellular-automaton background renderer
(`src/assets/game-of-life.js`): a shallow embedding of its CPU-side
seeding data structures (SeedWriter, RLE parser, pattern transformer,
pattern placer), of the per-cell update rules of its two simulation
shaders (Conway Life with CLAMP_TO_EDGE sampling, Langton Ant with
toroidal wrap), of the Ant step's tick-catch-up loop, and of the
start/stop/setMode lifecycle state machine.

Machine integers (JS numbers holding small integers, GLSL floats
holding exact small values, bytes of the RGBA textures) are embedded as
Nat/Int; GLSL float threshold comparisons such as `v > 0.5` on a
normalized byte channel `c/255` are embedded exactly as `2*c > 255`.
-/

namespace GOL

/-! ### SeedWriter (`class SeedWriter`, game-of-life.js lines 94-136)

The JS backing store is a flat `Uint8Array` of `size*size*channels`
bytes; it is embedded as a total function from flat index to byte
value.  Coordinates arrive as JS numbers and may be negative, so they
are embedded as `Int`. -/

structure SeedWriter where
  size : Nat
  channels : Nat
  data : Nat → Nat

/-- `inBounds(x, y)`: `x >= 0 && x < this.size && y >= 0 && y < this.size`. -/
def SeedWriter.inBounds (w : SeedWriter) (x y : Int) : Bool :=
  0 ≤ x && x < (w.size : Int) && 0 ≤ y && y < (w.size : Int)

/-- `index(x, y)`: `(y * this.size + x) * this.channels` (only ever
evaluated behind an `inBounds` guard, where `x, y ≥ 0`). -/
def SeedWriter.index (w : SeedWriter) (x y : Int) : Nat :=
  (y.toNat * w.size + x.toNat) * w.channels

/-- `setChannel(x, y, channel, value)`: returns the updated writer plus
the JS boolean result (`false` and no write when out of bounds). -/
def SeedWriter.setChannel (w : SeedWriter) (x y : Int) (channel value : Nat) :
    SeedWriter × Bool :=
  if w.inBounds x y then
    ({ w with data := Function.update w.data (w.index x y + channel) value }, true)
  else
    (w, false)

/-- `getChannel(x, y, channel)`: `0` when out of bounds. -/
def SeedWriter.getChannel (w : SeedWriter) (x y : Int) (channel : Nat) : Nat :=
  if w.inBounds x y then w.data (w.index x y + channel) else 0

/-- `setRgb(x, y, r, g, b)` (JS defaults `r = g = b = 255` are supplied
explicitly at call sites): writes the first three channels of the cell,
returns `false` and writes nothing when out of bounds. -/
def SeedWriter.setRgb (w : SeedWriter) (x y : Int) (r g b : Nat) :
    SeedWriter × Bool :=
  if w.inBounds x y then
    let idx := w.index x y
    ({ w with data :=
        Function.update (Function.update (Function.update w.data idx r)
          (idx + 1) g) (idx + 2) b }, true)
  else
    (w, false)

/-- `clearRgb(x, y)`: `setRgb(x, y, 0, 0, 0)`. -/
def SeedWriter.clearRgb (w : SeedWriter) (x y : Int) : SeedWriter × Bool :=
  w.setRgb x y 0 0 0

/-- `isEmpty(x, y)`: out-of-bounds cells report `false` (treated as
occupied); in-bounds cells test channel 0 against `0`. -/
def SeedWriter.isEmpty (w : SeedWriter) (x y : Int) : Bool :=
  if w.inBounds x y then w.data (w.index x y) == 0 else false

/-- C10 -- For every coordinate `(x, y)` outside `[0,N)x[0,N)`, the
GridSeedBuffer operations are safe no-ops: `getChannel` returns 0,
`isEmpty` returns `false`, and `setChannel`, `setRgb`, `clearRgb`
return `false` and leave the buffer contents unchanged. -/
theorem seedWriter_out_of_bounds_safe (w : SeedWriter) (x y : Int)
    (h : w.inBounds x y = false) :
    (∀ c, w.getChannel x y c = 0) ∧
    w.isEmpty x y = false ∧
    (∀ c v, w.setChannel x y c v = (w, false)) ∧
    (∀ r g b, w.setRgb x y r g b = (w, false)) ∧
    w.clearRgb x y = (w, false) := by
  refine ⟨fun c => ?_, ?_, fun c v => ?_, fun r g b => ?_, ?_⟩ <;>
    simp [SeedWriter.getChannel, SeedWriter.isEmpty, SeedWriter.setChannel,
      SeedWriter.setRgb, SeedWriter.clearRgb, h]

/-- Witness for C10 at the concrete out-of-bounds coordinate `(-1, 0)`
of a fresh 4-channel buffer of size 200. -/
theorem seedWriter_out_of_bounds_safe_witness :
    (SeedWriter.inBounds ⟨200, 4, fun _ => 0⟩ (-1) 0 = false) ∧
    ((∀ c, SeedWriter.getChannel ⟨200, 4, fun _ => 0⟩ (-1) 0 c = 0) ∧
     SeedWriter.isEmpty ⟨200, 4, fun _ => 0⟩ (-1) 0 = false ∧
     (∀ c v, SeedWriter.setChannel ⟨200, 4, fun _ => 0⟩ (-1) 0 c v =
        (⟨200, 4, fun _ => 0⟩, false)) ∧
     (∀ r g b, SeedWriter.setRgb ⟨200, 4, fun _ => 0⟩ (-1) 0 r g b =
        (⟨200, 4, fun _ => 0⟩, false)) ∧
     SeedWriter.clearRgb ⟨200, 4, fun _ => 0⟩ (-1) 0 =
        (⟨200, 4, fun _ => 0⟩, false)) :=
  ⟨by decide, seedWriter_out_of_bounds_safe _ _ _ (by decide)⟩

/-! ### Pattern geometry (`transformLifePattern`, lines 285-314)

A parsed pattern is a cell list plus bounding dimensions.  Cell
coordinates and dimensions are JS numbers holding integers, embedded as
`Int`. -/

structure LifePattern where
  width : Int
  height : Int
  cells : List (Int × Int)
  deriving DecidableEq

/-- `transformLifePattern(pattern, rotation, mirror)`: mirror
horizontally first (`x -> width-1-x`) when requested, then rotate by
`rotation & 3` quarter turns; output dimensions swap for odd rotations. -/
def transformLifePattern (pattern : LifePattern) (rotation : Nat) (mirror : Bool) :
    LifePattern :=
  let rot := rotation % 4
  let w := pattern.width
  let h := pattern.height
  let transformed := pattern.cells.map (fun cell =>
    let tx := if mirror then w - 1 - cell.1 else cell.1
    let ty := cell.2
    if rot = 0 then (tx, ty)
    else if rot = 1 then (ty, w - 1 - tx)
    else if rot = 2 then (w - 1 - tx, h - 1 - ty)
    else (h - 1 - ty, tx))
  { width := if rot % 2 = 0 then w else h
    height := if rot % 2 = 0 then h else w
    cells := transformed }

/-- Mapping a pointwise-identity function over a list is the identity. -/
theorem list_map_pointwise_id {α : Type} (f : α → α)
    (h : ∀ a, f a = a) : ∀ l : List α, l.map f = l := by
  intro l
  induction l with
  | nil => rfl
  | cons a l ih => simp [h, ih]

/-- C7 -- The transformer preserves cell count for every pattern,
rotation and mirror flag; rotation 2 (no mirror) applied twice is the
identity, and rotations 1 and 3 (no mirror) are mutual inverses, each
returning the original cells and dimensions. -/
theorem transformLifePattern_count_and_inverses :
    (∀ (p : LifePattern) (rotation : Nat) (mirror : Bool),
      (transformLifePattern p rotation mirror).cells.length = p.cells.length) ∧
    (∀ p : LifePattern, transformLifePattern (transformLifePattern p 2 false) 2 false = p) ∧
    (∀ p : LifePattern, transformLifePattern (transformLifePattern p 1 false) 3 false = p) ∧
    (∀ p : LifePattern, transformLifePattern (transformLifePattern p 3 false) 1 false = p) := by
  refine ⟨fun p rotation mirror => ?_, fun p => ?_, fun p => ?_, fun p => ?_⟩
  · simp [transformLifePattern]
  · obtain ⟨w, h, cells⟩ := p
    simp only [transformLifePattern]
    norm_num
    rw [list_map_pointwise_id]
    intro a
    obtain ⟨x, y⟩ := a
    simp only [Function.comp]
    norm_num
  · obtain ⟨w, h, cells⟩ := p
    simp only [transformLifePattern]
    norm_num
    rw [list_map_pointwise_id]
    intro a
    obtain ⟨x, y⟩ := a
    simp only [Function.comp]
    norm_num
  · obtain ⟨w, h, cells⟩ := p
    simp only [transformLifePattern]
    norm_num
    rw [list_map_pointwise_id]
    intro a
    obtain ⟨x, y⟩ := a
    simp only [Function.comp]
    norm_num

/-- C8 -- If every cell of a pattern lies in `[0,width) x [0,height)`,
then for every rotation and mirror flag every transformed cell lies in
`[0,newWidth) x [0,newHeight)` of the output dimensions. -/
theorem transformLifePattern_cells_in_bounds (p : LifePattern)
    (rotation : Nat) (mirror : Bool)
    (hb : ∀ c ∈ p.cells, 0 ≤ c.1 ∧ c.1 < p.width ∧ 0 ≤ c.2 ∧ c.2 < p.height) :
    ∀ c ∈ (transformLifePattern p rotation mirror).cells,
      0 ≤ c.1 ∧ c.1 < (transformLifePattern p rotation mirror).width ∧
      0 ≤ c.2 ∧ c.2 < (transformLifePattern p rotation mirror).height := by
  intro c hc
  have hrot : rotation % 4 = 0 ∨ rotation % 4 = 1 ∨ rotation % 4 = 2 ∨
      rotation % 4 = 3 := by omega
  simp only [transformLifePattern, List.mem_map] at hc ⊢
  obtain ⟨a, ha, rfl⟩ := hc
  have hab := hb a ha
  rcases hrot with h4 | h4 | h4 | h4 <;> rw [h4] <;> norm_num <;>
    cases mirror <;> simp <;> omega

/-- Witness for C8: the glider (3x3, 5 cells) under rotation 1 with
mirror, applied through the theorem with its bounds hypothesis
discharged by computation. -/
theorem transformLifePattern_cells_in_bounds_witness :
    (∀ c ∈ (LifePattern.mk 3 3 [(1, 0), (2, 1), (0, 2), (1, 2), (2, 2)]).cells,
      0 ≤ c.1 ∧ c.1 < (3 : Int) ∧ 0 ≤ c.2 ∧ c.2 < (3 : Int)) ∧
    (∀ c ∈ (transformLifePattern
        (LifePattern.mk 3 3 [(1, 0), (2, 1), (0, 2), (1, 2), (2, 2)]) 1 true).cells,
      0 ≤ c.1 ∧
      c.1 < (transformLifePattern
        (LifePattern.mk 3 3 [(1, 0), (2, 1), (0, 2), (1, 2), (2, 2)]) 1 true).width ∧
      0 ≤ c.2 ∧
      c.2 < (transformLifePattern
        (LifePattern.mk 3 3 [(1, 0), (2, 1), (0, 2), (1, 2), (2, 2)]) 1 true).height) :=
  ⟨by decide, transformLifePattern_cells_in_bounds _ 1 true (by decide)⟩

/-! ### RLE parser (`parseLifeRle`, lines 226-283)

The parser is embedded over `List Char`.  JS `split(/\r?\n/)` followed
by `.trim()` on every line is embedded as splitting on `'\n'` and
trimming (trim also removes a `'\r'` left at a line end, so the two
pipelines agree on every input). -/

/-- `rle.split(/\r?\n/)`: split the character stream at newlines,
keeping empty pieces. -/
def rleLines : List Char → List (List Char)
  | [] => [[]]
  | c :: rest =>
    if c = '\n' then [] :: rleLines rest
    else
      match rleLines rest with
      | [] => [[c]]
      | l :: ls => (c :: l) :: ls

/-- JS `String.prototype.trim` on a character list. -/
def rleTrim (l : List Char) : List Char :=
  ((l.dropWhile Char.isWhitespace).reverse.dropWhile Char.isWhitespace).reverse

/-- The header test `/^x\s*=\s*/i.test(line)`. -/
def rleIsHeader (l : List Char) : Bool :=
  match l with
  | [] => false
  | c :: rest =>
    (c = 'x' || c = 'X') &&
      (match rest.dropWhile Char.isWhitespace with
       | '=' :: _ => true
       | _ => false)

/-- The line loop of `parseLifeRle`: skip blank lines; before the
header line, skip everything (the header itself flips `dataStarted`);
after it, collect every non-blank trimmed line. -/
def rleDataLines : List (List Char) → Bool → List (List Char)
  | [], _ => []
  | l :: rest, started =>
    let t := rleTrim l
    if t = [] then rleDataLines rest started
    else if started then t :: rleDataLines rest started
    else if rleIsHeader t then rleDataLines rest true
    else rleDataLines rest false

/-- The token loop of `parseLifeRle` over the concatenated,
whitespace-stripped data stream.  State: write cursor `x`, row `y`, the
pending run count (`hasCount`/`count` embed the JS count string being
empty or holding digits), and the emitted cells. -/
def rleRun : List Char → Int → Int → Bool → Nat → List (Int × Int) →
    List (Int × Int)
  | [], _, _, _, _, cells => cells
  | ch :: rest, x, y, hasCount, count, cells =>
    if '0' ≤ ch ∧ ch ≤ '9' then
      rleRun rest x y true (count * 10 + (ch.toNat - '0'.toNat)) cells
    else
      let run : Nat := if hasCount then count else 1
      if ch = 'o' ∨ ch = 'O' then
        rleRun rest (x + run) y false 0
          (cells ++ (List.range run).map (fun k => (x + Int.ofNat k, y)))
      else if ch = 'b' ∨ ch = 'B' then
        rleRun rest (x + run) y false 0 cells
      else if ch = '$' then
        rleRun rest 0 (y + run) false 0 cells
      else if ch = '!' then
        cells
      else
        rleRun rest x y false 0 cells

/-- The bounding-extent loop of `parseLifeRle`:
`if (coord + 1 > extent) extent = coord + 1`, starting from `0`. -/
def rleExtent (f : Int × Int → Int) (cells : List (Int × Int)) : Int :=
  cells.foldl (fun w c => if f c + 1 > w then f c + 1 else w) 0

/-- `parseLifeRle(rle)`: returns `{ cells, width, height }` with the
extents derived from the emitted cells, not from the header. -/
def parseLifeRle (rle : String) : LifePattern :=
  let dataParts := rleDataLines (rleLines rle.data) false
  let raw := dataParts.flatten.filter (fun c => !c.isWhitespace)
  let cells := rleRun raw 0 0 false 0 []
  { width := rleExtent Prod.fst cells
    height := rleExtent Prod.snd cells
    cells := cells }

/-- The spec's tightest-bounding-box extent of a cell list along one
axis (`max - min + 1` over all emitted cells, `0` for an empty list);
stated from the spec's words for comparison with `rleExtent`. -/
def tightExtent (f : Int × Int → Int) : List (Int × Int) → Int
  | [] => 0
  | c :: rest =>
    (rest.map f).foldl max (f c) - (rest.map f).foldl min (f c) + 1

/-- The four library RLE texts (`LIFE_PATTERN_SOURCES`, lines 195-224). -/
def gliderRle : String := "#N Glider\n#O Richard K. Guy\n#C The smallest, most common, and first discovered spaceship. Diagonal, has period 4 and speed c/4.\n#C www.conwaylife.com/wiki/index.php?title=Glider\nx = 3, y = 3, rule = B3/S23\nbob$2bo$3o!"

def gosperGliderGunRle : String := "#N Gosper glider gun\n#O Bill Gosper\n#C A true period 30 glider gun.\n#C The first known gun and the first known finite pattern with unbounded growth.\n#C www.conwaylife.com/wiki/index.php?title=Gosper_glider_gun\nx = 36, y = 9, rule = B3/S23\n24bo11b$22bobo11b$12b2o6b2o12b2o$11bo3bo4b2o12b2o$2o8bo5bo3b2o14b$2o8bo3bob2o4bobo11b$10bo5bo7bo11b$11bo3bo20b$12b2o!"

def puffer1Rle : String := "#N Puffer 1\n#O Bill Gosper\n#C An orthogonal, period-128 puffer and the first puffer to be discovered\n#C red\n#C http://www.conwaylife.com/wiki/index.php?title=Puffer_1\nx = 27, y = 7, rule = b3/s23\nb3o6bo5bo6b3ob$o2bo5b3o3b3o5bo2bo$3bo4b2obo3bob2o4bo3b$3bo19bo3b$3bo2bo13bo2bo3b$3bo2b2o11b2o2bo3b$2bo3b2o11b2o3bo!"

def rPentominoRle : String := "#N R-pentomino\n#C A methuselah with lifespan 1103.\n#C www.conwaylife.com/wiki/index.php?title=R-pentomino\nx = 3, y = 3, rule = B3/S23\nb2o$2ob$bo!"

def LIFE_PATTERN_RLES : List String :=
  [gliderRle, gosperGliderGunRle, puffer1Rle, rPentominoRle]

/-- The extent fold never shrinks its accumulator. -/
theorem rleExtent_foldl_ge (f : Int × Int → Int) (l : List (Int × Int)) :
    ∀ acc : Int, acc ≤ l.foldl (fun w c => if f c + 1 > w then f c + 1 else w) acc := by
  induction l with
  | nil => simp
  | cons a l ih =>
    intro acc
    refine le_trans ?_ (ih _)
    dsimp only
    split <;> omega

/-- Every list element is covered by the extent fold. -/
theorem rleExtent_foldl_mem_le (f : Int × Int → Int) (l : List (Int × Int)) :
    ∀ acc : Int, ∀ c ∈ l,
      f c + 1 ≤ l.foldl (fun w c => if f c + 1 > w then f c + 1 else w) acc := by
  induction l with
  | nil => simp
  | cons a l ih =>
    intro acc c hc
    rcases List.mem_cons.mp hc with rfl | hc
    · refine le_trans ?_ (rleExtent_foldl_ge f l _)
      dsimp only
      split <;> omega
    · exact ih _ c hc

/-- The extent fold is attained: it equals its start value or `f c + 1`
for some list element `c`. -/
theorem rleExtent_foldl_attained (f : Int × Int → Int) (l : List (Int × Int)) :
    ∀ acc : Int,
      l.foldl (fun w c => if f c + 1 > w then f c + 1 else w) acc = acc ∨
      ∃ c ∈ l, l.foldl (fun w c => if f c + 1 > w then f c + 1 else w) acc = f c + 1 := by
  induction l with
  | nil => intro acc; exact Or.inl rfl
  | cons a l ih =>
    intro acc
    by_cases ha : f a + 1 > acc
    · rcases ih (f a + 1) with h | ⟨c, hc, h⟩
      · refine Or.inr ⟨a, List.mem_cons_self a l, ?_⟩
        simp only [List.foldl_cons]
        rw [if_pos ha]
        exact h
      · refine Or.inr ⟨c, List.mem_cons_of_mem a hc, ?_⟩
        simp only [List.foldl_cons]
        rw [if_pos ha]
        exact h
    · rcases ih acc with h | ⟨c, hc, h⟩
      · refine Or.inl ?_
        simp only [List.foldl_cons]
        rw [if_neg ha]
        exact h
      · refine Or.inr ⟨c, List.mem_cons_of_mem a hc, ?_⟩
        simp only [List.foldl_cons]
        rw [if_neg ha]
        exact h

/-- Every cell the RLE token loop emits has nonnegative coordinates
(the cursor starts at the origin, runs are nonnegative, and a row break
resets the column to `0`). -/
theorem rleRun_nonneg :
    ∀ (chars : List Char) (x y : Int) (hc : Bool) (cnt : Nat)
      (cells : List (Int × Int)),
      0 ≤ x → 0 ≤ y → (∀ c ∈ cells, 0 ≤ c.1 ∧ 0 ≤ c.2) →
      ∀ c ∈ rleRun chars x y hc cnt cells, 0 ≤ c.1 ∧ 0 ≤ c.2 := by
  intro chars
  induction chars with
  | nil =>
    intro x y hc cnt cells _ _ hcells c hmem
    exact hcells c hmem
  | cons ch rest ih =>
    intro x y hc cnt cells hx hy hcells c hmem
    by_cases hd : '0' ≤ ch ∧ ch ≤ '9'
    · rw [rleRun, if_pos hd] at hmem
      exact ih _ _ _ _ _ hx hy hcells c hmem
    · rw [rleRun, if_neg hd] at hmem
      by_cases ho : ch = 'o' ∨ ch = 'O'
      · rw [if_pos ho] at hmem
        refine ih _ _ _ _ _ (by omega) hy ?_ c hmem
        intro c' hc'
        rcases List.mem_append.mp hc' with h | h
        · exact hcells c' h
        · obtain ⟨k, _, rfl⟩ := List.mem_map.mp h
          exact ⟨show (0 : Int) ≤ x + Int.ofNat k from
            add_nonneg hx (Int.natCast_nonneg k), show (0 : Int) ≤ y from hy⟩
      · rw [if_neg ho] at hmem
        by_cases hb : ch = 'b' ∨ ch = 'B'
        · rw [if_pos hb] at hmem
          exact ih _ _ _ _ _ (by omega) hy hcells c hmem
        · rw [if_neg hb] at hmem
          by_cases hdl : ch = '$'
          · rw [if_pos hdl] at hmem
            exact ih _ _ _ _ _ le_rfl (by omega) hcells c hmem
          · rw [if_neg hdl] at hmem
            by_cases hex : ch = '!'
            · rw [if_pos hex] at hmem
              exact hcells c hmem
            · rw [if_neg hex] at hmem
              exact ih _ _ _ _ _ hx hy hcells c hmem

set_option maxRecDepth 40000 in
/-- C3 (amended) -- For every RLE input, `width`/`height` are the
extents of the origin-anchored bounding box of the emitted cells
(`maxX + 1` / `maxY + 1`, `0` for an empty cell list), so every cell
lies inside `[0,width) x [0,height)` and both extents are attained by
emitted cells when any exist; for every library pattern this coincides
with the tightest bounding box (`max - min + 1` on each axis). -/
theorem parseLifeRle_bbox :
    (∀ rle : String,
      (∀ c ∈ (parseLifeRle rle).cells,
        0 ≤ c.1 ∧ c.1 + 1 ≤ (parseLifeRle rle).width ∧
        0 ≤ c.2 ∧ c.2 + 1 ≤ (parseLifeRle rle).height) ∧
      ((parseLifeRle rle).cells = [] →
        (parseLifeRle rle).width = 0 ∧ (parseLifeRle rle).height = 0) ∧
      ((parseLifeRle rle).cells ≠ [] →
        (∃ c ∈ (parseLifeRle rle).cells, c.1 + 1 = (parseLifeRle rle).width) ∧
        (∃ c ∈ (parseLifeRle rle).cells, c.2 + 1 = (parseLifeRle rle).height))) ∧
    (∀ r ∈ LIFE_PATTERN_RLES,
      (parseLifeRle r).width = tightExtent Prod.fst (parseLifeRle r).cells ∧
      (parseLifeRle r).height = tightExtent Prod.snd (parseLifeRle r).cells) := by
  constructor
  · intro rle
    have hnn : ∀ c ∈ (parseLifeRle rle).cells, 0 ≤ c.1 ∧ 0 ≤ c.2 :=
      rleRun_nonneg _ 0 0 false 0 [] le_rfl le_rfl (by simp)
    refine ⟨fun c hc => ?_, fun hempty => ?_, fun hne => ?_⟩
    · obtain ⟨h1, h2⟩ := hnn c hc
      exact ⟨h1, rleExtent_foldl_mem_le Prod.fst _ 0 c hc, h2,
        rleExtent_foldl_mem_le Prod.snd _ 0 c hc⟩
    · refine ⟨?_, ?_⟩
      · show rleExtent Prod.fst (parseLifeRle rle).cells = 0
        rw [hempty]
        rfl
      · show rleExtent Prod.snd (parseLifeRle rle).cells = 0
        rw [hempty]
        rfl
    · constructor
      · rcases rleExtent_foldl_attained Prod.fst (parseLifeRle rle).cells 0 with h | ⟨c, hc, h⟩
        · exfalso
          obtain ⟨c, hc⟩ := List.exists_mem_of_ne_nil _ hne
          have := rleExtent_foldl_mem_le Prod.fst (parseLifeRle rle).cells 0 c hc
          have := (hnn c hc).1
          show False
          have hw : rleExtent Prod.fst (parseLifeRle rle).cells = 0 := h
          rw [rleExtent] at hw
          omega
        · exact ⟨c, hc, h.symm⟩
      · rcases rleExtent_foldl_attained Prod.snd (parseLifeRle rle).cells 0 with h | ⟨c, hc, h⟩
        · exfalso
          obtain ⟨c, hc⟩ := List.exists_mem_of_ne_nil _ hne
          have := rleExtent_foldl_mem_le Prod.snd (parseLifeRle rle).cells 0 c hc
          have := (hnn c hc).2
          have hw : rleExtent Prod.snd (parseLifeRle rle).cells = 0 := h
          rw [rleExtent] at hw
          omega
        · exact ⟨c, hc, h.symm⟩
  · decide

set_option maxRecDepth 8000 in
/-- C3 counterexample -- the RLE text `"x = 2, y = 1, rule = B3/S23\nbo!"`
emits the single cell `(1, 0)`; its tightest bounding box has width
`maxX - minX + 1 = 1`, but the parser returns `width = 2` (the
origin-anchored extent `maxX + 1`), refuting the claim that the
returned width always equals the tightest bounding box width. -/
theorem parseLifeRle_not_tight :
    (parseLifeRle "x = 2, y = 1, rule = B3/S23\nbo!").cells = [(1, 0)] ∧
    (parseLifeRle "x = 2, y = 1, rule = B3/S23\nbo!").width = 2 ∧
    tightExtent Prod.fst (parseLifeRle "x = 2, y = 1, rule = B3/S23\nbo!").cells = 1 ∧
    (parseLifeRle "x = 2, y = 1, rule = B3/S23\nbo!").width ≠
      tightExtent Prod.fst (parseLifeRle "x = 2, y = 1, rule = B3/S23\nbo!").cells := by
  decide

/-! ### Pattern placer (`chooseOffset` / `canStamp` / `stampPattern` /
`placePattern` / `seedLifeBoard`, lines 393-483)

Randomness is made explicit: each placement attempt consumes one
`PlaceDraw` (the rotation draw `(Math.random()*4)|0`, the mirror draw
`Math.random() < 0.5`, and the two offset draws).  A JS draw
`Math.floor(Math.random() * K)` is uniform over `[0, K)` and is
embedded as `d % K` for an arbitrary `d : Nat`, which ranges over
exactly the same values. -/

structure PlaceDraw where
  rotation : Nat
  mirror : Bool
  dx : Nat
  dy : Nat

/-- `chooseOffset(size, patternSize, padding)` with its random draw
made explicit: `0` when the pattern does not fit strictly inside,
otherwise uniform in `[pad, span-pad]` when that range is non-empty and
uniform in `[0, span]` when the padding collapses it. -/
def chooseOffset (size patternSize padding : Int) (d : Nat) : Int :=
  let span := size - patternSize
  if span ≤ 0 then 0
  else
    let pad := max 0 (min padding span)
    let lo := pad
    let hi := span - pad
    if hi < lo then Int.ofNat d % (span + 1)
    else lo + Int.ofNat d % (hi - lo + 1)

/-- `canStamp(cells, offsetX, offsetY)`: every translated cell must be
vacant (`isEmpty`, which also rejects out-of-bounds cells). -/
def canStamp (w : SeedWriter) (cells : List (Int × Int)) (offsetX offsetY : Int) :
    Bool :=
  cells.all (fun c => w.isEmpty (offsetX + c.1) (offsetY + c.2))

/-- `stampPattern(cells, offsetX, offsetY)`: `setRgb` (white) on every
translated cell. -/
def stampPattern (w : SeedWriter) (cells : List (Int × Int)) (offsetX offsetY : Int) :
    SeedWriter :=
  cells.foldl (fun w c => (w.setRgb (offsetX + c.1) (offsetY + c.2) 255 255 255).1) w

/-- `placePattern(pattern, padding)` over an explicit list of attempt
draws (the source draws exactly 80): transform with the drawn rotation
and mirror, choose the two offsets, and stamp at the first attempt
whose `canStamp` test passes.  In addition to the updated buffer it
returns the absolute cells of the successful stamp (`none` when all
attempts are exhausted, where the source returns `false`). -/
def placePattern (n : Nat) (p : LifePattern) (padding : Int) (w : SeedWriter) :
    List PlaceDraw → SeedWriter × Option (List (Int × Int))
  | [] => (w, none)
  | d :: rest =>
    let oriented := transformLifePattern p d.rotation d.mirror
    let offsetX := chooseOffset (Int.ofNat n) oriented.width padding d.dx
    let offsetY := chooseOffset (Int.ofNat n) oriented.height padding d.dy
    if canStamp w oriented.cells offsetX offsetY then
      (stampPattern w oriented.cells offsetX offsetY,
        some (oriented.cells.map (fun c => (offsetX + c.1, offsetY + c.2))))
    else
      placePattern n p padding w rest

/-- The pattern-placement phase of `seedLifeBoard` (lines 467-479): the
sequence of `placePattern` calls it makes (each library pattern
repeated up to its drawn count) is generalized to an arbitrary list of
jobs `(pattern, padding, attempt draws)`; the absolute cell list of
every successful placement is collected. -/
def seedLifeBoardPlacements (n : Nat) :
    SeedWriter → List (LifePattern × Int × List PlaceDraw) →
      SeedWriter × List (List (Int × Int))
  | w, [] => (w, [])
  | w, (p, padding, draws) :: rest =>
    match placePattern n p padding w draws with
    | (w1, some stamped) =>
      let out := seedLifeBoardPlacements n w1 rest
      (out.1, stamped :: out.2)
    | (w1, none) => seedLifeBoardPlacements n w1 rest

/-- Two placements are cell-disjoint when no cell of the first occurs
in the second. -/
def cellsDisjoint (p q : List (Int × Int)) : Prop :=
  ∀ c, c ∈ p → c ∉ q

/-- Decomposing equal flat cell indices: with both offsets below the
row stride, equal `row * stride + column` values force equal rows and
columns. -/
theorem flat_index_inj {s A B X Y : Nat} (hA : A < s) (hX : X < s)
    (h : B * s + A = Y * s + X) : A = X ∧ B = Y := by
  have h1 : (B * s + A) % s = (Y * s + X) % s := by rw [h]
  rw [Nat.mul_comm B s, Nat.mul_comm Y s, Nat.mul_add_mod, Nat.mul_add_mod,
    Nat.mod_eq_of_lt hA, Nat.mod_eq_of_lt hX] at h1
  subst h1
  refine ⟨rfl, ?_⟩
  have hs : 0 < s := Nat.pos_of_ne_zero (by rintro rfl; omega)
  have : B * s = Y * s := by omega
  exact Nat.eq_of_mul_eq_mul_right hs this

/-- `setRgb` changes neither the grid size nor the channel count. -/
theorem setRgb_shape (w : SeedWriter) (x y : Int) (r g b : Nat) :
    (w.setRgb x y r g b).1.size = w.size ∧
    (w.setRgb x y r g b).1.channels = w.channels := by
  rw [SeedWriter.setRgb]
  split <;> exact ⟨rfl, rfl⟩

/-- `inBounds` only reads the grid size. -/
theorem inBounds_of_size_eq {w w' : SeedWriter} (h : w'.size = w.size)
    (a b : Int) : w'.inBounds a b = w.inBounds a b := by
  rw [SeedWriter.inBounds, SeedWriter.inBounds, h]

/-- Distinct in-bounds cells of a 4-channel buffer use disjoint flat
index blocks: the channel-0 index of one cell differs from all three
RGB indices of the other. -/
theorem index_blocks_disjoint (w : SeedWriter) (hch : w.channels = 4)
    {x y a b : Int} (hxy : w.inBounds x y = true) (hab : w.inBounds a b = true)
    (hne : ¬(a = x ∧ b = y)) :
    w.index a b ≠ w.index x y ∧ w.index a b ≠ w.index x y + 1 ∧
    w.index a b ≠ w.index x y + 2 := by
  rw [SeedWriter.inBounds] at hxy hab
  simp only [Bool.and_eq_true, decide_eq_true_eq] at hxy hab
  obtain ⟨⟨⟨hx0, hx1⟩, hy0⟩, hy1⟩ := hxy
  obtain ⟨⟨⟨ha0, ha1⟩, hb0⟩, hb1⟩ := hab
  rw [SeedWriter.index, SeedWriter.index, hch]
  have hxs : x.toNat < w.size := by omega
  have hys : y.toNat < w.size := by omega
  have has : a.toNat < w.size := by omega
  have hbs : b.toNat < w.size := by omega
  refine ⟨fun hcontra => ?_, fun hcontra => by omega, fun hcontra => by omega⟩
  have h4 : b.toNat * w.size + a.toNat = y.toNat * w.size + x.toNat := by omega
  obtain ⟨hax, hby⟩ := flat_index_inj has hxs h4
  exact hne ⟨by omega, by omega⟩

/-- `setRgb(x, y, 255, 255, 255)` never makes an occupied cell vacant:
the target cell's channel 0 becomes 255, and no other cell's channel 0
is touched. -/
theorem setRgb_occupied_preserved (w : SeedWriter) (hch : w.channels = 4)
    (x y a b : Int) (h : w.isEmpty a b = false) :
    ((w.setRgb x y 255 255 255).1).isEmpty a b = false := by
  by_cases hxy : w.inBounds x y = true
  · rw [SeedWriter.setRgb, if_pos hxy]
    show (if w.inBounds a b = true then
        Function.update (Function.update (Function.update w.data
          (w.index x y) 255) (w.index x y + 1) 255) (w.index x y + 2) 255
          (w.index a b) == 0
      else false) = false
    by_cases hab : w.inBounds a b = true
    · rw [if_pos hab]
      rw [SeedWriter.isEmpty, if_pos hab] at h
      by_cases heq : a = x ∧ b = y
      · obtain ⟨rfl, rfl⟩ := heq
        rw [Function.update_noteq (by omega), Function.update_noteq (by omega),
          Function.update_same]
        decide
      · obtain ⟨h0, h1, h2⟩ := index_blocks_disjoint w hch hxy hab heq
        rw [Function.update_noteq h2, Function.update_noteq h1,
          Function.update_noteq h0]
        exact h
    · rw [if_neg hab]
  · rw [SeedWriter.setRgb, if_neg hxy]
    exact h

/-- `setRgb(x, y, 255, 255, 255)` on an in-bounds cell makes that cell
occupied. -/
theorem setRgb_makes_occupied (w : SeedWriter) (x y : Int)
    (hxy : w.inBounds x y = true) :
    ((w.setRgb x y 255 255 255).1).isEmpty x y = false := by
  rw [SeedWriter.setRgb, if_pos hxy]
  show (if w.inBounds x y = true then
      Function.update (Function.update (Function.update w.data
        (w.index x y) 255) (w.index x y + 1) 255) (w.index x y + 2) 255
        (w.index x y) == 0
    else false) = false
  rw [if_pos hxy, Function.update_noteq (by omega),
    Function.update_noteq (by omega), Function.update_same]
  decide

/-- `stampPattern` changes neither the grid size nor the channel count. -/
theorem stampPattern_shape (cells : List (Int × Int)) :
    ∀ (w : SeedWriter) (ox oy : Int),
      (stampPattern w cells ox oy).size = w.size ∧
      (stampPattern w cells ox oy).channels = w.channels := by
  induction cells with
  | nil => intro w ox oy; exact ⟨rfl, rfl⟩
  | cons c cs ih =>
    intro w ox oy
    have h1 := setRgb_shape w (ox + c.1) (oy + c.2) 255 255 255
    have h2 := ih ((w.setRgb (ox + c.1) (oy + c.2) 255 255 255).1) ox oy
    exact ⟨h2.1.trans h1.1, h2.2.trans h1.2⟩

/-- `stampPattern` never makes an occupied cell vacant. -/
theorem stampPattern_occupied_preserved (cells : List (Int × Int)) :
    ∀ (w : SeedWriter), w.channels = 4 → ∀ (ox oy a b : Int),
      w.isEmpty a b = false →
      (stampPattern w cells ox oy).isEmpty a b = false := by
  induction cells with
  | nil => intro w _ ox oy a b h; exact h
  | cons c cs ih =>
    intro w hch ox oy a b h
    have h1 := setRgb_occupied_preserved w hch (ox + c.1) (oy + c.2) a b h
    have hch1 : ((w.setRgb (ox + c.1) (oy + c.2) 255 255 255).1).channels = 4 :=
      (setRgb_shape w _ _ 255 255 255).2.trans hch
    exact ih _ hch1 ox oy a b h1

/-- After `stampPattern`, every translated in-bounds cell of the
stamped list is occupied. -/
theorem stampPattern_stamps (cells : List (Int × Int)) :
    ∀ (w : SeedWriter), w.channels = 4 → ∀ (ox oy : Int),
      (∀ c ∈ cells, w.inBounds (ox + c.1) (oy + c.2) = true) →
      ∀ c ∈ cells, (stampPattern w cells ox oy).isEmpty (ox + c.1) (oy + c.2) = false := by
  induction cells with
  | nil => intro w _ ox oy _ c hc; cases hc
  | cons c0 cs ih =>
    intro w hch ox oy hin c hc
    have hch1 : ((w.setRgb (ox + c0.1) (oy + c0.2) 255 255 255).1).channels = 4 :=
      (setRgb_shape w _ _ 255 255 255).2.trans hch
    rcases List.mem_cons.mp hc with rfl | hcs
    · have hocc := setRgb_makes_occupied w (ox + c.1) (oy + c.2)
        (hin c (List.mem_cons_self c cs))
      exact stampPattern_occupied_preserved cs _ hch1 ox oy _ _ hocc
    · refine ih _ hch1 ox oy ?_ c hcs
      intro c' hc'
      have hsz : ((w.setRgb (ox + c0.1) (oy + c0.2) 255 255 255).1).size = w.size :=
        (setRgb_shape w _ _ 255 255 255).1
      rw [inBounds_of_size_eq hsz]
      exact hin c' (List.mem_cons_of_mem c0 hc')

/-- A cell that passes `isEmpty` is in bounds. -/
theorem isEmpty_true_inBounds (w : SeedWriter) (a b : Int)
    (h : w.isEmpty a b = true) : w.inBounds a b = true := by
  rw [SeedWriter.isEmpty] at h
  by_cases hb : w.inBounds a b = true
  · exact hb
  · rw [if_neg hb] at h
    cases h

/-- `canStamp` certifies vacancy of every translated cell. -/
theorem canStamp_all_vacant (w : SeedWriter) (cells : List (Int × Int))
    (ox oy : Int) (h : canStamp w cells ox oy = true) :
    ∀ c ∈ cells, w.isEmpty (ox + c.1) (oy + c.2) = true := by
  rw [canStamp, List.all_eq_true] at h
  exact h

/-- A failed `placePattern` leaves the buffer untouched. -/
theorem placePattern_none (n : Nat) (p : LifePattern) (padding : Int) :
    ∀ (draws : List PlaceDraw) (w : SeedWriter),
      (placePattern n p padding w draws).2 = none →
      (placePattern n p padding w draws).1 = w := by
  intro draws
  induction draws with
  | nil => intro w _; rfl
  | cons d rest ih =>
    intro w h
    rw [placePattern] at h ⊢
    by_cases hc : canStamp w (transformLifePattern p d.rotation d.mirror).cells
        (chooseOffset (Int.ofNat n) (transformLifePattern p d.rotation d.mirror).width
          padding d.dx)
        (chooseOffset (Int.ofNat n) (transformLifePattern p d.rotation d.mirror).height
          padding d.dy) = true
    · rw [if_pos hc] at h
      cases h
    · rw [if_neg hc] at h ⊢
      exact ih w h

/-- `placePattern` changes neither the grid size nor the channel count. -/
theorem placePattern_shape (n : Nat) (p : LifePattern) (padding : Int) :
    ∀ (draws : List PlaceDraw) (w : SeedWriter),
      (placePattern n p padding w draws).1.size = w.size ∧
      (placePattern n p padding w draws).1.channels = w.channels := by
  intro draws
  induction draws with
  | nil => intro w; exact ⟨rfl, rfl⟩
  | cons d rest ih =>
    intro w
    rw [placePattern]
    by_cases hc : canStamp w (transformLifePattern p d.rotation d.mirror).cells
        (chooseOffset (Int.ofNat n) (transformLifePattern p d.rotation d.mirror).width
          padding d.dx)
        (chooseOffset (Int.ofNat n) (transformLifePattern p d.rotation d.mirror).height
          padding d.dy) = true
    · rw [if_pos hc]
      exact stampPattern_shape _ w _ _
    · rw [if_neg hc]
      exact ih w

/-- `placePattern` never makes an occupied cell vacant. -/
theorem placePattern_occupied_preserved (n : Nat) (p : LifePattern) (padding : Int) :
    ∀ (draws : List PlaceDraw) (w : SeedWriter), w.channels = 4 → ∀ (a b : Int),
      w.isEmpty a b = false →
      (placePattern n p padding w draws).1.isEmpty a b = false := by
  intro draws
  induction draws with
  | nil => intro w _ a b h; exact h
  | cons d rest ih =>
    intro w hch a b h
    rw [placePattern]
    by_cases hc : canStamp w (transformLifePattern p d.rotation d.mirror).cells
        (chooseOffset (Int.ofNat n) (transformLifePattern p d.rotation d.mirror).width
          padding d.dx)
        (chooseOffset (Int.ofNat n) (transformLifePattern p d.rotation d.mirror).height
          padding d.dy) = true
    · rw [if_pos hc]
      exact stampPattern_occupied_preserved _ w hch _ _ a b h
    · rw [if_neg hc]
      exact ih w hch a b h

/-- The cells recorded by a successful `placePattern` were all vacant
in the buffer it started from (failed attempts never write). -/
theorem placePattern_some_vacant_before (n : Nat) (p : LifePattern) (padding : Int) :
    ∀ (draws : List PlaceDraw) (w : SeedWriter) (stamped : List (Int × Int)),
      (placePattern n p padding w draws).2 = some stamped →
      ∀ c ∈ stamped, w.isEmpty c.1 c.2 = true := by
  intro draws
  induction draws with
  | nil => intro w stamped h; cases h
  | cons d rest ih =>
    intro w stamped h c hc
    rw [placePattern] at h
    by_cases hcan : canStamp w (transformLifePattern p d.rotation d.mirror).cells
        (chooseOffset (Int.ofNat n) (transformLifePattern p d.rotation d.mirror).width
          padding d.dx)
        (chooseOffset (Int.ofNat n) (transformLifePattern p d.rotation d.mirror).height
          padding d.dy) = true
    · rw [if_pos hcan] at h
      have hmap := (Option.some.injEq _ _).mp h
      rw [← hmap] at hc
      obtain ⟨a, ha, rfl⟩ := List.mem_map.mp hc
      exact canStamp_all_vacant w _ _ _ hcan a ha
    · rw [if_neg hcan] at h
      exact ih w stamped h c hc

/-- The cells recorded by a successful `placePattern` are occupied in
the buffer it returns. -/
theorem placePattern_some_occupied (n : Nat) (p : LifePattern) (padding : Int) :
    ∀ (draws : List PlaceDraw) (w : SeedWriter), w.channels = 4 →
      ∀ (stamped : List (Int × Int)),
      (placePattern n p padding w draws).2 = some stamped →
      ∀ c ∈ stamped, (placePattern n p padding w draws).1.isEmpty c.1 c.2 = false := by
  intro draws
  induction draws with
  | nil => intro w _ stamped h; cases h
  | cons d rest ih =>
    intro w hch stamped h c hc
    rw [placePattern] at h ⊢
    by_cases hcan : canStamp w (transformLifePattern p d.rotation d.mirror).cells
        (chooseOffset (Int.ofNat n) (transformLifePattern p d.rotation d.mirror).width
          padding d.dx)
        (chooseOffset (Int.ofNat n) (transformLifePattern p d.rotation d.mirror).height
          padding d.dy) = true
    · rw [if_pos hcan] at h ⊢
      have hmap := (Option.some.injEq _ _).mp h
      rw [← hmap] at hc
      obtain ⟨a, ha, rfl⟩ := List.mem_map.mp hc
      exact stampPattern_stamps _ w hch _ _
        (fun c' hc' => isEmpty_true_inBounds w _ _
          (canStamp_all_vacant w _ _ _ hcan c' hc')) a ha
    · rw [if_neg hcan] at h ⊢
      exact ih w hch stamped h c hc

/-- Invariant of the placement phase: channels are preserved, occupied
cells stay occupied, newly recorded placements avoid every cell that
was already occupied, every recorded cell ends occupied, and the
recorded placements are pairwise cell-disjoint. -/
theorem seedLifeBoardPlacements_spec (n : Nat) :
    ∀ (jobs : List (LifePattern × Int × List PlaceDraw)) (w : SeedWriter),
      w.channels = 4 →
      ((seedLifeBoardPlacements n w jobs).1.channels = 4) ∧
      (∀ a b : Int, w.isEmpty a b = false →
        (seedLifeBoardPlacements n w jobs).1.isEmpty a b = false) ∧
      (∀ a b : Int, w.isEmpty a b = false →
        ∀ q ∈ (seedLifeBoardPlacements n w jobs).2, (a, b) ∉ q) ∧
      (∀ q ∈ (seedLifeBoardPlacements n w jobs).2, ∀ c ∈ q,
        (seedLifeBoardPlacements n w jobs).1.isEmpty c.1 c.2 = false) ∧
      List.Pairwise cellsDisjoint (seedLifeBoardPlacements n w jobs).2 := by
  intro jobs
  induction jobs with
  | nil =>
    intro w hch
    exact ⟨hch, fun a b h => h, fun a b h q hq => absurd hq (List.not_mem_nil q),
      fun q hq => absurd hq (List.not_mem_nil q), List.Pairwise.nil⟩
  | cons job rest ih =>
    obtain ⟨p, padding, draws⟩ := job
    intro w hch
    rcases hres : placePattern n p padding w draws with ⟨w1, o⟩
    have hw1ch : w1.channels = 4 := by
      have h := (placePattern_shape n p padding draws w).2
      rw [hres] at h
      exact h.trans hch
    have hpres : ∀ a b : Int, w.isEmpty a b = false → w1.isEmpty a b = false := by
      intro a b h
      have h2 := placePattern_occupied_preserved n p padding draws w hch a b h
      rw [hres] at h2
      exact h2
    cases o with
    | none =>
      have hw1 : w1 = w := by
        have h2 := placePattern_none n p padding draws w (by rw [hres])
        rw [hres] at h2
        exact h2
      subst hw1
      rw [seedLifeBoardPlacements, hres]
      exact ih w1 hch
    | some stamped =>
      have hstocc : ∀ c ∈ stamped, w1.isEmpty c.1 c.2 = false := by
        intro c hc
        have h2 := placePattern_some_occupied n p padding draws w hch stamped
          (by rw [hres]) c hc
        rw [hres] at h2
        exact h2
      have hstvac : ∀ c ∈ stamped, w.isEmpty c.1 c.2 = true :=
        placePattern_some_vacant_before n p padding draws w stamped (by rw [hres])
      obtain ⟨ih1, ih2, ih3, ih4, ih5⟩ := ih w1 hw1ch
      rw [seedLifeBoardPlacements, hres]
      refine ⟨ih1, ?_, ?_, ?_, ?_⟩
      · intro a b h
        exact ih2 a b (hpres a b h)
      · intro a b h q hq
        rcases List.mem_cons.mp hq with rfl | hq
        · intro hmem
          have := hstvac (a, b) hmem
          rw [h] at this
          cases this
        · exact ih3 a b (hpres a b h) q hq
      · intro q hq c hc
        rcases List.mem_cons.mp hq with rfl | hq
        · exact ih2 c.1 c.2 (hstocc c hc)
        · exact ih4 q hq c hc
      · refine List.Pairwise.cons ?_ ih5
        intro q hq c hc
        have h2 := ih3 c.1 c.2 (hstocc c hc) q hq
        simpa using h2
      -- done

/-- C6 -- For every sequence of random draws (and any starting seed
buffer with the source's 4-channel layout), after the Life pattern
placer finishes placing library patterns no two distinct stamped
placements share a cell: each pattern is stamped only when every
translated cell tested vacant immediately before stamping, so distinct
placements occupy disjoint cell sets. -/
theorem seedLifeBoardPlacements_disjoint (n : Nat) (w0 : SeedWriter)
    (jobs : List (LifePattern × Int × List PlaceDraw))
    (hch : w0.channels = 4) :
    List.Pairwise cellsDisjoint (seedLifeBoardPlacements n w0 jobs).2 :=
  (seedLifeBoardPlacements_spec n jobs w0 hch).2.2.2.2

/-- Witness for C6: two glider placement jobs with identical draws on a
fresh 8x8 buffer (the second attempt fails its vacancy test, so only
one placement is recorded). -/
theorem seedLifeBoardPlacements_disjoint_witness :
    (SeedWriter.channels ⟨8, 4, fun _ => 0⟩ = 4) ∧
    List.Pairwise cellsDisjoint
      (seedLifeBoardPlacements 8 ⟨8, 4, fun _ => 0⟩
        [(LifePattern.mk 3 3 [(1, 0), (2, 1), (0, 2), (1, 2), (2, 2)], 0,
            [PlaceDraw.mk 0 false 0 0]),
         (LifePattern.mk 3 3 [(1, 0), (2, 1), (0, 2), (1, 2), (2, 2)], 0,
            [PlaceDraw.mk 0 false 0 0])]).2 :=
  ⟨rfl, seedLifeBoardPlacements_disjoint 8 _ _ rfl⟩

/-! ### Life simulation shader (`createLifeSimulation` simfs, lines
331-359, with the texture parameters of `applyTextureDefaults`, lines
138-143)

The state texture holds one cell per texel, channel r in `{0, 1}`
after normalization.  `get(o)` samples at `(gl_FragCoord.xy + o) /
u_resolution` with `NEAREST` filtering and `CLAMP_TO_EDGE` wrapping, so
the sampled texel index on each axis is the offset index clamped into
`[0, N-1]`.  Float threshold comparisons on the integral sum are scaled
by 2 (`sum < 1.5` becomes `2*sum < 3`, and so on). -/

/-- The texel index actually read by `get` along one axis:
`CLAMP_TO_EDGE` clamps into `[0, N-1]`. -/
def clampIdx (N : Nat) (i : Int) : Nat :=
  (min (max i 0) ((N : Int) - 1)).toNat

/-- `get(o)` of the Life shader as the sampled cell's r channel
(`0` or `1`). -/
def lifeGet (g : Nat → Nat → Bool) (N : Nat) (x y : Int) : Nat :=
  if g (clampIdx N x) (clampIdx N y) then 1 else 0

/-- The shader's eight-neighbor `sum`. -/
def lifeSum (g : Nat → Nat → Bool) (N : Nat) (x y : Int) : Nat :=
  lifeGet g N (x - 1) (y - 1) + lifeGet g N (x - 1) y + lifeGet g N (x - 1) (y + 1) +
  lifeGet g N x (y - 1) + lifeGet g N x (y + 1) +
  lifeGet g N (x + 1) (y - 1) + lifeGet g N (x + 1) y + lifeGet g N (x + 1) (y + 1)

/-- The per-cell next state of the Life shader for the fragment of cell
`(x, y)`: `next` starts as `current` and is overwritten by the two
threshold tests. -/
def lifeNext (g : Nat → Nat → Bool) (N : Nat) (x y : Nat) : Bool :=
  let sum := lifeSum g N x y
  let current := lifeGet g N x y
  if 2 * current > 1 then
    if 2 * sum < 3 ∨ 2 * sum > 7 then false else true
  else
    if 2 * sum > 5 ∧ 2 * sum < 7 then true else false

/-- The claim's per-cell rule stated from the spec's words, for
comparison with `lifeNext`: a neighbor coordinate outside
`[0,N) x [0,N)` counts as dead. -/
def specLifeGet (g : Nat → Nat → Bool) (N : Nat) (x y : Int) : Nat :=
  if 0 ≤ x ∧ x < (N : Int) ∧ 0 ≤ y ∧ y < (N : Int) then
    (if g x.toNat y.toNat then 1 else 0)
  else 0

/-- The claim's eight-neighbor count (out-of-range neighbors dead). -/
def specLifeCount (g : Nat → Nat → Bool) (N : Nat) (x y : Int) : Nat :=
  specLifeGet g N (x - 1) (y - 1) + specLifeGet g N (x - 1) y +
  specLifeGet g N (x - 1) (y + 1) + specLifeGet g N x (y - 1) +
  specLifeGet g N x (y + 1) + specLifeGet g N (x + 1) (y - 1) +
  specLifeGet g N (x + 1) y + specLifeGet g N (x + 1) (y + 1)

/-- The claim's next-state rule stated from the spec's words: alive
survives iff the dead-border count is 2 or 3, dead is born iff it is
exactly 3. -/
def specLifeNext (g : Nat → Nat → Bool) (N : Nat) (x y : Nat) : Bool :=
  let cnt := specLifeCount g N x y
  if g x y then decide (cnt = 2 ∨ cnt = 3) else decide (cnt = 3)

/-- `CLAMP_TO_EDGE` is the identity on in-range indices. -/
theorem clampIdx_of_lt (N x : Nat) (h : x < N) : clampIdx N x = x := by
  rw [clampIdx]
  omega

/-- C1 (amended) -- In the Life shader every neighbor read clamps its
coordinate to the nearest edge cell (`CLAMP_TO_EDGE`), so border cells
re-count edge cells (possibly themselves) instead of reading dead; with
that clamped sum, an alive cell stays alive iff the sum is 2 or 3 and a
dead cell becomes alive iff the sum is exactly 3. -/
theorem lifeNext_rule (g : Nat → Nat → Bool) (N : Nat) (x y : Nat)
    (hx : x < N) (hy : y < N) :
    lifeNext g N x y = true ↔
      ((g x y = true ∧ (lifeSum g N x y = 2 ∨ lifeSum g N x y = 3)) ∨
       (g x y = false ∧ lifeSum g N x y = 3)) := by
  have hcur : lifeGet g N x y = if g x y then 1 else 0 := by
    rw [lifeGet, clampIdx_of_lt N x hx, clampIdx_of_lt N y hy]
  rw [lifeNext, hcur]
  cases hg : g x y <;> simp <;> omega

/-- Witness for C1 (amended): the middle cell of a 3x3 grid holding a
horizontal blinker, with the bounds hypotheses discharged concretely. -/
theorem lifeNext_rule_witness :
    ((1 < 3) ∧ (1 < 3)) ∧
    (lifeNext (fun _ j => j == 1) 3 1 1 = true ↔
      (((fun (_ j : Nat) => j == 1) 1 1 = true ∧
        (lifeSum (fun _ j => j == 1) 3 1 1 = 2 ∨
         lifeSum (fun _ j => j == 1) 3 1 1 = 3)) ∨
       ((fun (_ j : Nat) => j == 1) 1 1 = false ∧
        lifeSum (fun _ j => j == 1) 3 1 1 = 3))) :=
  ⟨⟨by decide, by decide⟩, lifeNext_rule _ 3 1 1 (by decide) (by decide)⟩

/-- C1 counterexample -- on a 3x3 grid whose only alive cell is the
corner `(0, 0)`, the claimed dead-border rule kills the corner (zero
alive neighbors), but the shader's clamped sampling counts the corner
itself three times (sum 3) and keeps it alive: the code does not
implement the claimed border behavior. -/
theorem lifeNext_corner_counterexample :
    lifeNext (fun i j => i == 0 && j == 0) 3 0 0 = true ∧
    specLifeCount (fun i j => i == 0 && j == 0) 3 0 0 = 0 ∧
    specLifeNext (fun i j => i == 0 && j == 0) 3 0 0 = false ∧
    lifeNext (fun i j => i == 0 && j == 0) 3 0 0 ≠
      specLifeNext (fun i j => i == 0 && j == 0) 3 0 0 := by
  decide

/-! ### Ant simulation shader (`createAntSimulation` simfs, lines
563-624, and `spawnAnt`, lines 741-749)

Each texel holds `(r, g, b)` bytes: track color, agent-present flag,
and the stored agent direction.  Byte channels normalize to `c/255`;
float threshold comparisons against `0.5` are embedded as comparisons
of `2*c` against `255`.  The frame-buffer store of a float value `v`
into a byte is `round(255*v)`, so `encodeDir(dir) = dir/4.0` stores the
byte `(510*dir + 4) / 8` — exactly the byte `spawnAnt` writes with
`Math.round(dir * 255 / 4)`. -/

structure AntCell where
  r : Nat
  g : Nat
  b : Nat
  deriving DecidableEq

/-- `decodeDir(v)` = `floor(v*4.0 + 0.5)` on the normalized byte
`v/255`: `floor((8v + 255) / 510)`. -/
def decodeDir (v : Nat) : Nat :=
  (8 * v + 255) / 510

/-- The byte stored for `encodeDir(dir)` = `dir/4.0`:
`round(255*dir/4) = floor((510*dir + 4) / 8)`. -/
def encodeDir (dir : Nat) : Nat :=
  (510 * dir + 4) / 8

/-- `turnRight(dir)` = `mod(dir + 1.0, 4.0)`. -/
def turnRight (dir : Nat) : Nat :=
  (dir + 1) % 4

/-- `turnLeft(dir)` = `mod(dir + 3.0, 4.0)`. -/
def turnLeft (dir : Nat) : Nat :=
  (dir + 3) % 4

/-- `sampleWrap`'s per-axis texel index:
`mod(coord - 0.5 + res, res) + 0.5` on the texel center `t + 0.5 + d`
samples texel `(t + d + N) mod N` (GLSL `mod` is the nonnegative
remainder). -/
def wrapCoord (N : Nat) (t : Nat) (d : Int) : Nat :=
  (((t : Int) + d + (N : Int)) % (N : Int)).toNat

/-- `sampleWrap(offset)` for the fragment of cell `(x, y)`. -/
def sampleWrap (grid : Nat → Nat → AntCell) (N : Nat) (x y : Nat)
    (dx dy : Int) : AntCell :=
  grid (wrapCoord N x dx) (wrapCoord N y dy)

/-- The shader's neighbor table: offsets paired with the facing that
walks into the current cell from that neighbor
(`offsets`/`incomingDir`, lines 608-609). -/
def antOffsets : List ((Int × Int) × Nat) :=
  [((0, -1), 2), ((1, 0), 3), ((0, 1), 0), ((-1, 0), 1)]

/-- The per-cell next state of the Ant shader for the fragment of cell
`(x, y)`: an agent on the cell flips the track color (the agent itself
leaves); the cell receives an agent iff some neighbor hosts one whose
post-turn facing walks into this cell, the first matching neighbor in
table order winning. -/
def antNextCell (grid : Nat → Nat → AntCell) (N : Nat) (x y : Nat) : AntCell :=
  let state := grid x y
  let color := state.r
  let ant := state.g
  let nextColor := if 2 * ant > 255 then 255 - color else color
  let acc := antOffsets.foldl (fun (acc : Nat × Nat) oi =>
    let neighbor := sampleWrap grid N x y oi.1.1 oi.1.2
    if 2 * neighbor.g > 255 ∧ 2 * acc.1 < 255 then
      let dir := decodeDir neighbor.b
      let newDir := if 2 * neighbor.r < 255 then turnRight dir else turnLeft dir
      if newDir = oi.2 then (255, encodeDir newDir) else acc
    else acc) (0, 0)
  ⟨nextColor, acc.1, acc.2⟩

/-- The direction byte `spawnAnt` writes into channel 2:
`Math.round((((dir % 4) + 4) % 4) * 255 / 4)`. -/
def spawnAntDirByte (dir : Int) : Nat :=
  encodeDir ((dir % 4 + 4) % 4).toNat

/-- Adding the grid size before the nonnegative remainder changes
nothing: `wrapCoord` samples the offset coordinate modulo `N`. -/
theorem wrapCoord_eq_emod (N t : Nat) (d : Int) :
    wrapCoord N t d = (((t : Int) + d) % (N : Int)).toNat := by
  rw [wrapCoord]
  congr 1
  have h : ((t : Int) + d + (N : Int)) = ((t : Int) + d) + 1 * (N : Int) := by ring
  rw [h, Int.add_mul_emod_self]

/-- C5 -- Every Ant neighbor lookup wraps toroidally: `sampleWrap`
resolves an offset that leaves `[0,N) x [0,N)` to the cell at the same
offset taken modulo `N` on each axis; in particular column `-1`
resolves to column `N-1`, and a coordinate reaching `N` resolves
to `0`. -/
theorem sampleWrap_toroidal (grid : Nat → Nat → AntCell) (N : Nat)
    (x y : Nat) (dx dy : Int) (hN : 0 < N) :
    sampleWrap grid N x y dx dy =
      grid ((((x : Int) + dx) % (N : Int)).toNat)
           ((((y : Int) + dy) % (N : Int)).toNat) ∧
    wrapCoord N 0 (-1) = N - 1 ∧
    (∀ (t : Nat) (d : Int), (t : Int) + d = (N : Int) → wrapCoord N t d = 0) := by
  refine ⟨?_, ?_, ?_⟩
  · rw [sampleWrap, wrapCoord_eq_emod, wrapCoord_eq_emod]
  · rw [wrapCoord]
    have h1 : (((0 : Nat) : Int) + (-1) + (N : Int)) = ((N - 1 : Nat) : Int) := by
      push_cast
      omega
    rw [h1, Int.emod_eq_of_lt (by positivity) (by exact_mod_cast Nat.sub_lt hN one_pos)]
    omega
  · intro t d h
    rw [wrapCoord, h]
    have h2 : ((N : Int) + (N : Int)) = 0 + 2 * (N : Int) := by ring
    rw [h2, Int.add_mul_emod_self, Int.zero_emod]
    rfl

/-- Witness for C5: on a 4x4 grid, the lookup from cell `(0, 3)` at
offset `(-1, 1)` resolves to cell `(3, 0)`. -/
theorem sampleWrap_toroidal_witness :
    (0 < 4) ∧
    (sampleWrap (fun i j => ⟨i, j, 0⟩) 4 0 3 (-1) 1 =
      (fun i j => (⟨i, j, 0⟩ : AntCell))
        ((((0 : Int) + (-1)) % (4 : Int)).toNat)
        ((((3 : Int) + 1) % (4 : Int)).toNat) ∧
     wrapCoord 4 0 (-1) = 4 - 1 ∧
     (∀ (t : Nat) (d : Int), (t : Int) + d = (4 : Int) → wrapCoord 4 t d = 0)) :=
  ⟨by decide, sampleWrap_toroidal _ 4 0 3 (-1) 1 (by decide)⟩

/-- `wrapCoord` is the identity on an in-range coordinate with no
offset. -/
theorem wrapCoord_self (N t : Nat) (ht : t < N) : wrapCoord N t 0 = t := by
  rw [wrapCoord_eq_emod, add_zero,
    Int.emod_eq_of_lt (by positivity) (by exact_mod_cast ht)]
  omega

theorem wrapCoord_succ (N t : Nat) : wrapCoord N t 1 = (t + 1) % N := by
  rw [wrapCoord_eq_emod]
  have h : ((t : Int) + 1) = ((t + 1 : Nat) : Int) := by push_cast; ring
  rw [h, ← Int.natCast_mod]
  omega

theorem wrapCoord_pred (N t : Nat) (hN : 1 ≤ N) :
    wrapCoord N t (-1) = (t + (N - 1)) % N := by
  rw [wrapCoord]
  have h : ((t : Int) + (-1) + (N : Int)) = ((t + (N - 1) : Nat) : Int) := by omega
  rw [h, ← Int.natCast_mod]
  omega

theorem succ_mod_ne (N t : Nat) (hN : 2 ≤ N) (ht : t < N) : (t + 1) % N ≠ t := by
  rcases Nat.lt_or_ge (t + 1) N with h | h
  · rw [Nat.mod_eq_of_lt h]
    omega
  · have h1 : t + 1 = N := by omega
    rw [h1, Nat.mod_self]
    omega

theorem pred_mod_ne (N t : Nat) (hN : 2 ≤ N) (ht : t < N) :
    (t + (N - 1)) % N ≠ t := by
  rcases Nat.lt_or_ge (t + (N - 1)) N with h | h
  · rw [Nat.mod_eq_of_lt h]
    omega
  · have h1 : t + (N - 1) = (t - 1) + 1 * N := by omega
    rw [h1, Nat.add_mul_mod_self_right, Nat.mod_eq_of_lt (by omega)]
    omega

theorem succ_pred_mod (N t : Nat) (hN : 1 ≤ N) (ht : t < N) :
    ((t + 1) % N + (N - 1)) % N = t := by
  rcases Nat.lt_or_ge (t + 1) N with h | h
  · rw [Nat.mod_eq_of_lt h]
    have h1 : t + 1 + (N - 1) = t + 1 * N := by omega
    rw [h1, Nat.add_mul_mod_self_right, Nat.mod_eq_of_lt ht]
  · have h1 : t + 1 = N := by omega
    rw [h1, Nat.mod_self, Nat.zero_add, Nat.mod_eq_of_lt (by omega)]
    omega


theorem antSingle_start (N x0 y0 : Nat) (hN : 2 ≤ N) (hx : x0 < N) (hy : y0 < N) :
    antNextCell (fun i j => if i = x0 ∧ j = y0 then (⟨0, 255, 0⟩ : AntCell)
      else ⟨0, 0, 0⟩) N x0 y0 = ⟨255, 0, 0⟩ := by
  have hc : ∀ i j : Nat, ¬(i = x0 ∧ j = y0) →
      (fun i j => if i = x0 ∧ j = y0 then (⟨0, 255, 0⟩ : AntCell)
        else ⟨0, 0, 0⟩) i j = ⟨0, 0, 0⟩ := by
    intro i j h
    simp only [if_neg h]
  have hup : sampleWrap (fun i j => if i = x0 ∧ j = y0 then (⟨0, 255, 0⟩ : AntCell)
      else ⟨0, 0, 0⟩) N x0 y0 0 (-1) = ⟨0, 0, 0⟩ := by
    rw [sampleWrap, wrapCoord_self N x0 hx, wrapCoord_pred N y0 (by omega)]
    exact hc _ _ (fun h => pred_mod_ne N y0 hN hy h.2)
  have hright : sampleWrap (fun i j => if i = x0 ∧ j = y0 then (⟨0, 255, 0⟩ : AntCell)
      else ⟨0, 0, 0⟩) N x0 y0 1 0 = ⟨0, 0, 0⟩ := by
    rw [sampleWrap, wrapCoord_self N y0 hy, wrapCoord_succ N x0]
    exact hc _ _ (fun h => succ_mod_ne N x0 hN hx h.1)
  have hdown : sampleWrap (fun i j => if i = x0 ∧ j = y0 then (⟨0, 255, 0⟩ : AntCell)
      else ⟨0, 0, 0⟩) N x0 y0 0 1 = ⟨0, 0, 0⟩ := by
    rw [sampleWrap, wrapCoord_self N x0 hx, wrapCoord_succ N y0]
    exact hc _ _ (fun h => succ_mod_ne N y0 hN hy h.2)
  have hleft : sampleWrap (fun i j => if i = x0 ∧ j = y0 then (⟨0, 255, 0⟩ : AntCell)
      else ⟨0, 0, 0⟩) N x0 y0 (-1) 0 = ⟨0, 0, 0⟩ := by
    rw [sampleWrap, wrapCoord_self N y0 hy, wrapCoord_pred N x0 (by omega)]
    exact hc _ _ (fun h => pred_mod_ne N x0 hN hx h.1)
  rw [antNextCell]
  simp only [antOffsets, List.foldl]
  rw [hup, hright, hdown, hleft]
  norm_num


theorem antSingle_right (N x0 y0 : Nat) (hN : 2 ≤ N) (hx : x0 < N) (hy : y0 < N) :
    antNextCell (fun i j => if i = x0 ∧ j = y0 then (⟨0, 255, 0⟩ : AntCell)
      else ⟨0, 0, 0⟩) N ((x0 + 1) % N) y0 = ⟨0, 255, encodeDir 1⟩ := by
  have hc : ∀ i j : Nat, ¬(i = x0 ∧ j = y0) →
      (fun i j => if i = x0 ∧ j = y0 then (⟨0, 255, 0⟩ : AntCell)
        else ⟨0, 0, 0⟩) i j = ⟨0, 0, 0⟩ := by
    intro i j h
    simp only [if_neg h]
  have hxr_lt : (x0 + 1) % N < N := Nat.mod_lt _ (by omega)
  have hxr_ne : (x0 + 1) % N ≠ x0 := succ_mod_ne N x0 hN hx
  have hup : sampleWrap (fun i j => if i = x0 ∧ j = y0 then (⟨0, 255, 0⟩ : AntCell)
      else ⟨0, 0, 0⟩) N ((x0 + 1) % N) y0 0 (-1) = ⟨0, 0, 0⟩ := by
    rw [sampleWrap, wrapCoord_self N _ hxr_lt, wrapCoord_pred N y0 (by omega)]
    exact hc _ _ (fun h => hxr_ne h.1)
  have hdown : sampleWrap (fun i j => if i = x0 ∧ j = y0 then (⟨0, 255, 0⟩ : AntCell)
      else ⟨0, 0, 0⟩) N ((x0 + 1) % N) y0 0 1 = ⟨0, 0, 0⟩ := by
    rw [sampleWrap, wrapCoord_self N _ hxr_lt, wrapCoord_succ N y0]
    exact hc _ _ (fun h => hxr_ne h.1)
  have hleft : sampleWrap (fun i j => if i = x0 ∧ j = y0 then (⟨0, 255, 0⟩ : AntCell)
      else ⟨0, 0, 0⟩) N ((x0 + 1) % N) y0 (-1) 0 = ⟨0, 255, 0⟩ := by
    rw [sampleWrap, wrapCoord_self N y0 hy, wrapCoord_pred N _ (by omega),
      succ_pred_mod N x0 (by omega) hx]
    simp
  have hr : sampleWrap (fun i j => if i = x0 ∧ j = y0 then (⟨0, 255, 0⟩ : AntCell)
      else ⟨0, 0, 0⟩) N ((x0 + 1) % N) y0 1 0 = ⟨0, 255, 0⟩ ∨
      sampleWrap (fun i j => if i = x0 ∧ j = y0 then (⟨0, 255, 0⟩ : AntCell)
        else ⟨0, 0, 0⟩) N ((x0 + 1) % N) y0 1 0 = ⟨0, 0, 0⟩ := by
    rw [sampleWrap, wrapCoord_self N y0 hy, wrapCoord_succ N _]
    by_cases hcase : ((x0 + 1) % N + 1) % N = x0
    · left
      simp [hcase]
    · right
      have hcase2 : ¬(x0 + 1 + 1) % N = x0 := by
        rw [← Nat.mod_add_mod]
        exact hcase
      simp [hcase2]
  rcases hr with h | h <;>
    simp [antNextCell, antOffsets, h, hup, hdown, hleft, hxr_ne,
      decodeDir, turnRight, turnLeft, encodeDir]

/-- C4 -- One Ant step from a single agent on an all-light background
facing up (direction 0, the byte `spawnAnt` encodes): the starting
cell flips to dark and no longer hosts the agent, and the cell one step
to the right (with toroidal wrap) hosts the agent facing 1 (right). -/
theorem ant_single_agent_step (N x0 y0 : Nat) (hN : 2 ≤ N)
    (hx : x0 < N) (hy : y0 < N) :
    antNextCell (fun i j => if i = x0 ∧ j = y0 then
        (⟨0, 255, spawnAntDirByte 0⟩ : AntCell) else ⟨0, 0, 0⟩) N x0 y0 =
      ⟨255, 0, 0⟩ ∧
    antNextCell (fun i j => if i = x0 ∧ j = y0 then
        (⟨0, 255, spawnAntDirByte 0⟩ : AntCell) else ⟨0, 0, 0⟩) N
        ((x0 + 1) % N) y0 = ⟨0, 255, encodeDir 1⟩ ∧
    (x0 + 1) % N ≠ x0 ∧
    decodeDir (encodeDir 1) = 1 := by
  have hb : spawnAntDirByte 0 = 0 := by decide
  rw [hb]
  exact ⟨antSingle_start N x0 y0 hN hx hy, antSingle_right N x0 y0 hN hx hy,
    succ_mod_ne N x0 hN hx, by decide⟩

/-- Witness for C4 on the 2x2 grid with the agent at `(1, 0)`, so the
rightward move wraps to column `0`. -/
theorem ant_single_agent_step_witness :
    (2 ≤ 2 ∧ 1 < 2 ∧ 0 < 2) ∧
    (antNextCell (fun i j => if i = 1 ∧ j = 0 then
        (⟨0, 255, spawnAntDirByte 0⟩ : AntCell) else ⟨0, 0, 0⟩) 2 1 0 =
      ⟨255, 0, 0⟩ ∧
     antNextCell (fun i j => if i = 1 ∧ j = 0 then
        (⟨0, 255, spawnAntDirByte 0⟩ : AntCell) else ⟨0, 0, 0⟩) 2
        ((1 + 1) % 2) 0 = ⟨0, 255, encodeDir 1⟩ ∧
     (1 + 1) % 2 ≠ 1 ∧
     decodeDir (encodeDir 1) = 1) :=
  ⟨⟨by decide, by decide, by decide⟩,
    ant_single_agent_step 2 1 0 (by decide) (by decide) (by decide)⟩

/-! ### Ant step cadence (`createAntSimulation` step, lines 855-895)

`step(t, ...)` runs `while (t - lastStep >= stepMs && iterations < 64)`
with `stepMs = 30`, advancing `lastStep` by 30 per tick; on the very
first call (`lastStep == 0` is falsy) it pretends the last tick was
30 ms ago.  Only the timing skeleton is embedded: the loop body's GPU
work does not feed back into the loop condition. -/

/-- The catch-up loop: remaining iteration budget and last-tick time,
returning the number of ticks executed. -/
def antTickGo (t : Int) : Nat → Int → Nat
  | 0, _ => 0
  | fuel + 1, lastStep =>
    if 30 ≤ t - lastStep then antTickGo t fuel (lastStep + 30) + 1 else 0

/-- The tick count of one `step(t, ...)` call given the stored
`lastStep` (with the first-call initialization). -/
def antStepTicks (t lastStep : Int) : Nat :=
  antTickGo t 64 (if lastStep = 0 then t - 30 else lastStep)

/-- The catch-up loop executes one tick per whole 30 ms period elapsed,
capped by its iteration budget. -/
theorem antTickGo_eq_min (t : Int) :
    ∀ (fuel : Nat) (lastStep : Int),
      antTickGo t fuel lastStep = min ((t - lastStep).toNat / 30) fuel := by
  intro fuel
  induction fuel with
  | zero => intro lastStep; rw [antTickGo, Nat.min_zero]
  | succ fuel ih =>
    intro lastStep
    by_cases h : 30 ≤ t - lastStep
    · rw [antTickGo, if_pos h, ih]
      have h1 : (t - (lastStep + 30)).toNat = (t - lastStep).toNat - 30 := by
        omega
      rw [h1]
      omega
    · rw [antTickGo, if_neg h]
      have h1 : (t - lastStep).toNat < 30 := by omega
      omega

/-- C9 -- Each Ant `step(t, ...)` call executes exactly the number of
whole 30 ms periods elapsed since the last tick, capped at 64; no call
ever executes more than 64 ticks, and a call with less than 30 ms
elapsed executes zero ticks. -/
theorem antStepTicks_spec (t lastStep : Int) (h : lastStep ≠ 0) :
    antStepTicks t lastStep = min ((t - lastStep).toNat / 30) 64 ∧
    (∀ t2 l2 : Int, antStepTicks t2 l2 ≤ 64) ∧
    ((t - lastStep).toNat < 30 → antStepTicks t lastStep = 0) := by
  have hmain : antStepTicks t lastStep = min ((t - lastStep).toNat / 30) 64 := by
    rw [antStepTicks, if_neg h, antTickGo_eq_min]
  refine ⟨hmain, fun t2 l2 => ?_, fun hlt => ?_⟩
  · rw [antStepTicks, antTickGo_eq_min]
    omega
  · rw [hmain]
    omega

/-- Witness for C9: a call at `t = 205` with the last tick at `10`
(195 ms elapsed) executes exactly 6 ticks. -/
theorem antStepTicks_spec_witness :
    ((10 : Int) ≠ 0) ∧
    (antStepTicks 205 10 = min ((205 - 10 : Int).toNat / 30) 64 ∧
     (∀ t2 l2 : Int, antStepTicks t2 l2 ≤ 64) ∧
     ((205 - 10 : Int).toNat < 30 → antStepTicks 205 10 = 0)) :=
  ⟨by decide, antStepTicks_spec 205 10 (by decide)⟩

/-! ### Lifecycle (`start` / `stop` / `setMode`, lines 910-1006)

The lifecycle is embedded as a state machine over
`(running, currentMode, startToken, sim)`, where `sim` records the
active simulator together with the start token that created it
(`cleanupFn` is non-null exactly when `sim` is present).  The
asynchronous `waitForStyles` continuation is modeled as resolving
immediately with its token check passing and context/simulator
construction succeeding: the claim compares the settled states of
whole calls, and in a single non-overlapping call the captured token
always equals the current one. -/

inductive SimMode
  | life
  | ant
  deriving DecidableEq

structure LifecycleState where
  running : Bool
  currentMode : SimMode
  startToken : Nat
  sim : Option (SimMode × Nat)
  deriving DecidableEq

/-- `start(mode?)`: adopt a valid requested mode (every `SimMode` is in
`MODES`), dispose any active simulator, bump the token, mark running,
and (settled continuation) construct the new simulator tagged with the
new token. -/
def start (mode? : Option SimMode) (s : LifecycleState) : LifecycleState :=
  let m := match mode? with
    | some m => m
    | none => s.currentMode
  let token := s.startToken + 1
  { running := true, currentMode := m, startToken := token,
    sim := some (m, token) }

/-- `stop()`: early-return when already stopped with nothing to clean
up; otherwise clear `running`, bump the token, and dispose the
simulator. -/
def stop (s : LifecycleState) : LifecycleState :=
  if s.running = false ∧ s.sim = none then s
  else
    { running := false, currentMode := s.currentMode,
      startToken := s.startToken + 1, sim := none }

/-- `setMode(mode)`: no-op for the current mode; otherwise remember the
new mode and, when running, restart via `start(mode)`. -/
def setMode (m : SimMode) (s : LifecycleState) : LifecycleState :=
  if m = s.currentMode then s
  else
    let s1 := { s with currentMode := m }
    if s.running then start (some m) s1 else s1

/-- The observable lifecycle surface: running flag, remembered mode,
and the active simulator's mode. -/
def observe (s : LifecycleState) : Bool × SimMode × Option SimMode :=
  (s.running, s.currentMode, s.sim.map Prod.fst)

/-- Whether `s` holds a simulator constructed after the state `s0`
(a "fresh simulator" relative to `s0`). -/
def simFreshSince (s0 s : LifecycleState) : Bool :=
  match s.sim with
  | some (_, tk) => s0.startToken < tk
  | none => false

/-- Observable equivalence of two result states relative to a common
starting state: same observation and same simulator freshness. -/
def obsEquiv (s0 s1 s2 : LifecycleState) : Prop :=
  observe s1 = observe s2 ∧ simFreshSince s0 s1 = simFreshSince s0 s2

/-- C2 (amended) -- For every mode `m` different from the current one,
`setMode(m)` while running is observably equivalent to `stop()`
followed by `start(m)` (both running mode `m` on a freshly constructed
simulator); while stopped, `setMode(m)` only updates the remembered
mode.  (`setMode` of the current mode is a no-op, so the equivalence
needs `m ≠ currentMode`.) -/
theorem setMode_equiv (s : LifecycleState) (m : SimMode) :
    (s.running = true → m ≠ s.currentMode →
      obsEquiv s (setMode m s) (start (some m) (stop s))) ∧
    (s.running = false → setMode m s = { s with currentMode := m }) := by
  constructor
  · intro hrun hne
    obtain ⟨run, cur, tok, sim⟩ := s
    have hrun2 : run = true := hrun
    subst hrun2
    have hne2 : m ≠ cur := hne
    simp [setMode, stop, start, obsEquiv, observe, simFreshSince, hne2]
    omega
  · intro hstop
    obtain ⟨run, cur, tok, sim⟩ := s
    have hrun2 : run = false := hstop
    subst hrun2
    by_cases hm : m = cur
    · subst hm
      simp [setMode]
    · simp [setMode, hm]

/-- Witness for C2 (amended): switching a running `life` lifecycle to
`ant`. -/
theorem setMode_equiv_witness :
    ((true : Bool) = true ∧ SimMode.ant ≠ SimMode.life) ∧
    obsEquiv ⟨true, SimMode.life, 5, some (SimMode.life, 5)⟩
      (setMode SimMode.ant ⟨true, SimMode.life, 5, some (SimMode.life, 5)⟩)
      (start (some SimMode.ant)
        (stop ⟨true, SimMode.life, 5, some (SimMode.life, 5)⟩)) :=
  ⟨⟨rfl, by decide⟩,
    (setMode_equiv ⟨true, SimMode.life, 5, some (SimMode.life, 5)⟩
      SimMode.ant).1 rfl (by decide)⟩

/-- C2 counterexample -- calling `setMode` with the mode that is
already current while running is a no-op (the source returns before the
restart), whereas `stop()` then `start(m)` constructs a fresh
simulator; so the claimed equivalence fails for `m = currentMode`. -/
theorem setMode_same_mode_no_restart :
    setMode SimMode.life ⟨true, SimMode.life, 5, some (SimMode.life, 5)⟩ =
      ⟨true, SimMode.life, 5, some (SimMode.life, 5)⟩ ∧
    simFreshSince ⟨true, SimMode.life, 5, some (SimMode.life, 5)⟩
      (setMode SimMode.life ⟨true, SimMode.life, 5, some (SimMode.life, 5)⟩) =
        false ∧
    simFreshSince ⟨true, SimMode.life, 5, some (SimMode.life, 5)⟩
      (start (some SimMode.life)
        (stop ⟨true, SimMode.life, 5, some (SimMode.life, 5)⟩)) = true ∧
    ¬ obsEquiv ⟨true, SimMode.life, 5, some (SimMode.life, 5)⟩
      (setMode SimMode.life ⟨true, SimMode.life, 5, some (SimMode.life, 5)⟩)
      (start (some SimMode.life)
        (stop ⟨true, SimMode.life, 5, some (SimMode.life, 5)⟩)) := by
  refine ⟨rfl, rfl, rfl, ?_⟩
  intro h
  cases h.2

end GOL
